import Mathlib

/-!
Tag synchronisation glue of the AWS provider (CodeArtifact) and the Route53 destroy check.

Shallow embedding of

* `internal/service/codeartifact/tags_gen.go`
  (`listTags`, `ListTags`, `Tags`, `KeyValueTags`, `getTagsIn`, `setTagsOut`, `updateTags`,
  `UpdateTags`), and
* `internal/service/route53/records_exclusive_test.go`
  (`testAccCheckRecordsExclusiveDestroy`).

Conventions of the embedding.

* A Go `*string` is an `Option String` (`none` is the nil pointer).
* A Go `map[string]V` is a `GoMap V`: a list of entries with pairwise distinct keys. The order
  of the list is a matter of representation only; a `range` over a map visits the entries in an
  order the language leaves unspecified, so every function that ranges over a map and lets the
  order show takes the order as a `RangeOrder` argument.
* A Go `error` result is an `Option GoError` (`none` is the nil error).
* An AWS API connection is a record of functions from the request to the response; the calls a
  function issues are returned as a trace next to its result.
* Elements of a `[]*codeartifact.Tag` are taken to be non-nil pointers, and `rs.Primary` of a
  resource in a Terraform state is taken to be non-nil.
-/

/-! ## Go values -/

/-- Lookup of a key in a list of entries: the value of the first entry with that key. -/
def alookup {α : Type} (k : String) : List (String × α) → Option α
  | [] => none
  | e :: es => if e.1 = k then some e.2 else alookup k es

/-- Go `map[string]V`. -/
structure GoMap (α : Type) where
  entries : List (String × α)
  nodupKeys : (entries.map Prod.fst).Nodup

namespace GoMap

variable {α β : Type}

/-- The nil (or freshly made) map. -/
def empty : GoMap α := ⟨[], List.nodup_nil⟩

/-- Go `len(m)`. -/
def len (m : GoMap α) : Nat := m.entries.length

/-- The keys of the map, in the order of the representation. -/
def keys (m : GoMap α) : List String := m.entries.map Prod.fst

/-- Go `v, ok := m[k]`. -/
def get? (m : GoMap α) (k : String) : Option α := alookup k m.entries

/-- Go `m[k] = v`. -/
def set (m : GoMap α) (k : String) (v : α) : GoMap α :=
  ⟨(k, v) :: m.entries.filter (fun e => decide (e.1 ≠ k)), by
    rw [List.map_cons, List.nodup_cons]
    refine ⟨?_, m.nodupKeys.sublist ((List.filter_sublist m.entries).map Prod.fst)⟩
    intro h
    obtain ⟨e, he, hk⟩ := List.mem_map.1 h
    have := (List.mem_filter.1 he).2
    simp at this
    exact this hk⟩

/-- Go `delete(m, k)`. -/
def delete (m : GoMap α) (k : String) : GoMap α :=
  ⟨m.entries.filter (fun e => decide (e.1 ≠ k)),
    m.nodupKeys.sublist ((List.filter_sublist m.entries).map Prod.fst)⟩

/-- The map built by the loop
`result := make(map); for k, v := range m { if p(k, v) { result[k] = v } }`. -/
def filter (p : String → α → Bool) (m : GoMap α) : GoMap α :=
  ⟨m.entries.filter (fun e => p e.1 e.2),
    m.nodupKeys.sublist ((List.filter_sublist m.entries).map Prod.fst)⟩

/-- The map built by the loop
`result := make(map); for k, v := range m { result[k] = f(v) }`. -/
def mapValues (f : α → β) (m : GoMap α) : GoMap β :=
  ⟨m.entries.map (fun e => (e.1, f e.2)), by
    have h : (m.entries.map (fun e => (e.1, f e.2))).map Prod.fst = m.entries.map Prod.fst := by
      rw [List.map_map]; rfl
    rw [h]; exact m.nodupKeys⟩

end GoMap

/-- The order in which a `range` over a `map[string]V` visits its entries: some rearrangement
of the entries, not fixed by the language. -/
structure RangeOrder (α : Type) where
  visit : List (String × α) → List (String × α)
  isPerm : ∀ l, (visit l).Perm l

/-- Go `strings.HasPrefix(s, p)`. -/
def HasPrefix (s p : String) : Bool := p.data.isPrefixOf s.data

/-- A (non-nil) Go `error` value: either a plain error with its dynamic type and its `Error()`
text, or an error with its own text that wraps another error (`fmt.Errorf` with `%w`). -/
inductive GoError where
  | plain (goType : String) (msg : String)
  | wrap (msg : String) (cause : GoError)
  deriving DecidableEq, Repr

namespace GoError

/-- The `Error()` method. -/
def Error : GoError → String
  | plain _ msg => msg
  | wrap msg _ => msg

/-- Go `errors.Unwrap`. -/
def Unwrap : GoError → Option GoError
  | plain _ _ => none
  | wrap _ cause => some cause

end GoError

/-- Go `errors.New(msg)`. -/
def errors_New (msg : String) : GoError := GoError.plain "*errors.errorString" msg

/-- Go `aws.StringValue(p)`: the string pointed to, the empty string for nil. -/
def aws_StringValue (p : Option String) : String := p.getD ""

/-- Go `aws.StringSlice(ss)`: a pointer to each string. -/
def aws_StringSlice (ss : List String) : List (Option String) := ss.map some

/-! ## Package `internal/tags` (imported as `tftags`) -/

namespace tftags

/-- Modelled from the spec: the type `tftags.KeyValueTags`, whose package `internal/tags` is
not among the sources. A tag set is "a mapping from string key to string value" in which "keys
are unique within a resource". -/
abbrev KeyValueTags := GoMap String

/-- A key matches a reserved prefix of the list. -/
def matchesReserved (reserved : List String) (k : String) : Bool :=
  reserved.any (fun p => HasPrefix k p)

namespace KeyValueTags

/-- Modelled from the spec: `tftags.New(ctx, nil)`, absent from the sources: the empty tag
set. -/
def New_nil : KeyValueTags := GoMap.empty

/-- Modelled from the spec: `tftags.New(ctx, tags)` on a tag set, absent from the sources: the
tag set with the same keys and values. -/
def New (tags : KeyValueTags) : KeyValueTags := tags

/-- Modelled from the spec: `tftags.New(ctx, m)` on a `map[string]*string`, absent from the
sources: the tag set with the keys of `m`, each with the string its pointer points to (the
empty string for a nil pointer, a tag value being a string). -/
def New_ptrs (m : GoMap (Option String)) : KeyValueTags := m.mapValues aws_StringValue

/-- Modelled from the spec: `KeyValueTags.Map()`, absent from the sources: the key to value
map of the tag set. -/
def Map (tags : KeyValueTags) : GoMap String := tags

/-- Modelled from the spec: `KeyValueTags.Keys()`, absent from the sources: the keys of the tag
set, collected by a `range` over it. -/
def Keys (ρ : RangeOrder String) (tags : KeyValueTags) : List String :=
  (ρ.visit tags.entries).map Prod.fst

/-- Modelled from the spec: `KeyValueTags.Removed`, absent from the sources: the tags that
"must be removed (present in old, absent in new)". -/
def Removed (tags newTags : KeyValueTags) : KeyValueTags :=
  GoMap.filter (fun k _ => (newTags.get? k).isNone) tags

/-- Modelled from the spec: `KeyValueTags.Updated`, absent from the sources: the tags that
"must be added or changed (present in new with a different or absent value in old)". -/
def Updated (tags newTags : KeyValueTags) : KeyValueTags :=
  GoMap.filter (fun k newV => decide (tags.get? k ≠ some newV)) newTags

/-- Modelled from the spec: `KeyValueTags.IgnoreSystem(serviceName)`, absent from the sources:
the tags "excluding any key matching a reserved/system prefix for that service". The reserved
prefixes of each service are the parameter `reserved`. -/
def IgnoreSystem (reserved : String → List String) (tags : KeyValueTags)
    (serviceName : String) : KeyValueTags :=
  GoMap.filter (fun k _ => !matchesReserved (reserved serviceName) k) tags

end KeyValueTags

/-- Modelled from the spec: the struct `tftags.InContext`, absent from the sources: the
"per-operation context value carrying the tag set to emit", with the "tag-in/tag-out channel"
as the fields `TagsIn` and `TagsOut` (each a `types.Option[KeyValueTags]`) the code reads and
writes; `rest` stands for every other field. -/
structure InContext (Rest : Type) where
  rest : Rest
  TagsIn : Option KeyValueTags
  TagsOut : Option KeyValueTags

/-- A `context.Context`, as far as tags go: the tag context it carries, if any. -/
abbrev Context (Rest : Type) := Option (InContext Rest)

/-- Modelled from the spec: `tftags.FromContext(ctx)`, absent from the sources: the tag context
of `ctx` and whether there is one. -/
def FromContext {Rest : Type} (ctx : Context Rest) : Option (InContext Rest) := ctx

end tftags

/-- Modelled from the spec: `types.Option[T].UnwrapOrDefault()`, absent from the sources: the
value held, or the zero value of the type (for a tag set the nil map). -/
def UnwrapOrDefault (o : Option tftags.KeyValueTags) : tftags.KeyValueTags := o.getD GoMap.empty

/-! ## Package `internal/service/codeartifact`, file `tags_gen.go` -/

namespace codeartifact

/-- AWS SDK `codeartifact.Tag`. -/
structure Tag where
  Key : Option String
  Value : Option String
  deriving DecidableEq, Repr

/-- AWS SDK `codeartifact.ListTagsForResourceInput`. -/
structure ListTagsForResourceInput where
  ResourceArn : Option String
  deriving DecidableEq, Repr

/-- AWS SDK `codeartifact.ListTagsForResourceOutput`. -/
structure ListTagsForResourceOutput where
  Tags : List Tag
  deriving DecidableEq, Repr

/-- AWS SDK `codeartifact.UntagResourceInput`. -/
structure UntagResourceInput where
  ResourceArn : Option String
  TagKeys : List (Option String)
  deriving DecidableEq, Repr

/-- AWS SDK `codeartifact.TagResourceInput`. -/
structure TagResourceInput where
  ResourceArn : Option String
  Tags : List Tag
  deriving DecidableEq, Repr

/-- A request sent to the CodeArtifact API. -/
inductive ApiCall where
  | ListTagsForResource (input : ListTagsForResourceInput)
  | UntagResource (input : UntagResourceInput)
  | TagResource (input : TagResourceInput)
  deriving DecidableEq, Repr

/-- The interface `codeartifactiface.CodeArtifactAPI`, as far as this file uses it: the
response of the service to each request (for the two update calls only the error is read). -/
structure CodeArtifactAPI where
  ListTagsForResourceWithContext : ListTagsForResourceInput → Except GoError ListTagsForResourceOutput
  UntagResourceWithContext : UntagResourceInput → Option GoError
  TagResourceWithContext : TagResourceInput → Option GoError

/-- What the tag code needs from the rest of the provider: the reserved key prefixes of each
service (used by `IgnoreSystem`) and the constant `names.CodeArtifact`. -/
structure Provider where
  reserved : String → List String
  names_CodeArtifact : String

/-- Source lines 52-66: `Tags` returns codeartifact service tags. -/
def Tags (ρ : RangeOrder String) (tags : tftags.KeyValueTags) : List Tag :=
  (ρ.visit tags.Map.entries).map (fun e => { Key := some e.1, Value := some e.2 })

/-- Source lines 68-77: `KeyValueTags` creates `tftags.KeyValueTags` from codeartifact service
tags. -/
def KeyValueTags (tags : List Tag) : tftags.KeyValueTags :=
  let m : GoMap (Option String) :=
    tags.foldl (fun m tag => m.set (aws_StringValue tag.Key) tag.Value) GoMap.empty
  tftags.KeyValueTags.New_ptrs m

/-- Source lines 17-32: `listTags` lists codeartifact service tags. -/
def listTags (conn : CodeArtifactAPI) (identifier : String) :
    tftags.KeyValueTags × Option GoError :=
  let input : ListTagsForResourceInput := { ResourceArn := some identifier }
  match conn.ListTagsForResourceWithContext input with
  | .error err => (tftags.KeyValueTags.New_nil, some err)
  | .ok output => (KeyValueTags output.Tags, none)

/-- Source lines 34-48: `ListTags` lists codeartifact service tags and sets them in the
context. The result is the returned error and the context after the call. -/
def ListTags {Rest : Type} (conn : CodeArtifactAPI) (ctx : tftags.Context Rest)
    (identifier : String) : Option GoError × tftags.Context Rest :=
  match listTags conn identifier with
  | (_, some err) => (some err, ctx)
  | (tags, none) =>
    match tftags.FromContext ctx with
    | some inContext => (none, some { inContext with TagsOut := some tags })
    | none => (none, ctx)

/-- Source lines 79-89: `getTagsIn` returns codeartifact service tags from the context. The
result is a Go slice: `none` is the nil slice. -/
def getTagsIn {Rest : Type} (ρ : RangeOrder String) (ctx : tftags.Context Rest) :
    Option (List Tag) :=
  match tftags.FromContext ctx with
  | some inContext =>
    let tags := Tags ρ (UnwrapOrDefault inContext.TagsIn)
    if tags.length > 0 then some tags else none
  | none => none

/-- Source lines 91-96: `setTagsOut` sets codeartifact service tags in the context. -/
def setTagsOut {Rest : Type} (ctx : tftags.Context Rest) (tags : List Tag) :
    tftags.Context Rest :=
  match tftags.FromContext ctx with
  | some inContext => some { inContext with TagsOut := some (KeyValueTags tags) }
  | none => ctx

/-- Source lines 105-106: the removed set of `updateTags`. -/
def removedTags (p : Provider) (oldTags newTags : tftags.KeyValueTags) : tftags.KeyValueTags :=
  let removedTags := oldTags.Removed newTags
  removedTags.IgnoreSystem p.reserved p.names_CodeArtifact

/-- Source lines 120-121: the updated set of `updateTags`. -/
def updatedTags (p : Provider) (oldTags newTags : tftags.KeyValueTags) : tftags.KeyValueTags :=
  let updatedTags := oldTags.Updated newTags
  updatedTags.IgnoreSystem p.reserved p.names_CodeArtifact

/-- Source lines 120-135: the second half of `updateTags`, reached when no untag call
failed. -/
def updateTags_tag (p : Provider) (ρ : RangeOrder String) (conn : CodeArtifactAPI)
    (identifier : String) (oldTags newTags : tftags.KeyValueTags) :
    List ApiCall × Option GoError :=
  let updatedTags := updatedTags p oldTags newTags
  if updatedTags.len > 0 then
    let input : TagResourceInput :=
      { ResourceArn := some identifier, Tags := Tags ρ updatedTags }
    match conn.TagResourceWithContext input with
    | some err =>
      ([ApiCall.TagResource input],
        some (GoError.wrap ("tagging resource (" ++ identifier ++ "): " ++ err.Error) err))
    | none => ([ApiCall.TagResource input], none)
  else
    ([], none)

/-- Source lines 101-136: `updateTags` updates codeartifact service tags. The result is the
sequence of requests issued and the returned error. -/
def updateTags (p : Provider) (ρ : RangeOrder String) (conn : CodeArtifactAPI)
    (identifier : String) (oldTagsMap newTagsMap : tftags.KeyValueTags) :
    List ApiCall × Option GoError :=
  let oldTags := tftags.KeyValueTags.New oldTagsMap
  let newTags := tftags.KeyValueTags.New newTagsMap
  let removedTags := removedTags p oldTags newTags
  if removedTags.len > 0 then
    let input : UntagResourceInput :=
      { ResourceArn := some identifier, TagKeys := aws_StringSlice (removedTags.Keys ρ) }
    match conn.UntagResourceWithContext input with
    | some err =>
      ([ApiCall.UntagResource input],
        some (GoError.wrap ("untagging resource (" ++ identifier ++ "): " ++ err.Error) err))
    | none =>
      let rest := updateTags_tag p ρ conn identifier oldTags newTags
      (ApiCall.UntagResource input :: rest.1, rest.2)
  else
    updateTags_tag p ρ conn identifier oldTags newTags

/-- Source lines 138-142: `UpdateTags`, the entry point called from outside the package. -/
def UpdateTags (p : Provider) (ρ : RangeOrder String) (conn : CodeArtifactAPI)
    (identifier : String) (oldTags newTags : tftags.KeyValueTags) :
    List ApiCall × Option GoError :=
  updateTags p ρ conn identifier oldTags newTags

end codeartifact

/-- The error with which the service answers a request (`none` when the request succeeds). -/
def codeartifact.CodeArtifactAPI.errorOf (conn : codeartifact.CodeArtifactAPI) :
    codeartifact.ApiCall → Option GoError
  | codeartifact.ApiCall.ListTagsForResource input =>
    match conn.ListTagsForResourceWithContext input with
    | .error err => some err
    | .ok _ => none
  | codeartifact.ApiCall.UntagResource input => conn.UntagResourceWithContext input
  | codeartifact.ApiCall.TagResource input => conn.TagResourceWithContext input

/-! ## The effect of the two update requests on the tags of a resource -/

/-- The tag set an untag request leaves: the tag set with the given keys deleted. -/
def untagged (tags : tftags.KeyValueTags) (keys : List String) : tftags.KeyValueTags :=
  keys.foldl GoMap.delete tags

/-- The tag set a tag request leaves: the tag set with each given entry inserted, the value
of a key already present being overwritten. -/
def tagged (tags : tftags.KeyValueTags) (entries : List (String × String)) :
    tftags.KeyValueTags :=
  entries.foldl (fun m e => m.set e.1 e.2) tags

/-- Two requests that are the same but for the order of the entries of `TagKeys` or of
`Tags`. -/
def SameUpToOrder : codeartifact.ApiCall → codeartifact.ApiCall → Prop
  | codeartifact.ApiCall.ListTagsForResource a, codeartifact.ApiCall.ListTagsForResource b =>
    a = b
  | codeartifact.ApiCall.UntagResource a, codeartifact.ApiCall.UntagResource b =>
    a.ResourceArn = b.ResourceArn ∧ a.TagKeys.Perm b.TagKeys
  | codeartifact.ApiCall.TagResource a, codeartifact.ApiCall.TagResource b =>
    a.ResourceArn = b.ResourceArn ∧ a.Tags.Perm b.Tags
  | _, _ => False

/-- A service whose answers to the untag and tag requests are fixed. -/
def fixedResponses (untagResponse tagResponse : Option GoError) : codeartifact.CodeArtifactAPI :=
  { ListTagsForResourceWithContext := fun _ => .ok { Tags := [] }
    UntagResourceWithContext := fun _ => untagResponse
    TagResourceWithContext := fun _ => tagResponse }

/-! ## Sample values -/

/-- The `range` that visits the entries in the order of the representation. -/
def inOrder {α : Type} : RangeOrder α := ⟨fun l => l, fun l => List.Perm.refl l⟩

/-- The `range` that visits the entries in the opposite order. -/
def reversed {α : Type} : RangeOrder α := ⟨List.reverse, fun l => List.reverse_perm l⟩

/-- A provider in which every service reserves the key prefix `aws:`. -/
def sampleProvider : codeartifact.Provider :=
  { reserved := fun _ => ["aws:"], names_CodeArtifact := "codeartifact" }

/-- The tag set `a = 1, b = 2`. -/
def sampleTags : tftags.KeyValueTags := (GoMap.empty.set "b" "2").set "a" "1"

/-- The tag set `a = 1, aws:x = y, c = 3`. -/
def sampleOldTags : tftags.KeyValueTags :=
  ((GoMap.empty.set "c" "3").set "aws:x" "y").set "a" "1"

/-- An error of the service. -/
def sampleError : GoError := GoError.plain "*awserr.requestError" "AccessDenied"

/-! ## Package `internal/service/route53`, file `records_exclusive_test.go` -/

namespace route53_test

/-- Plugin SDK `terraform.InstanceState`, as far as the check reads it. -/
structure InstanceState where
  Attributes : GoMap String

/-- Plugin SDK `terraform.ResourceState`, as far as the check reads it (`Type_` is the field
`Type`). -/
structure ResourceState where
  Type_ : String
  Primary : InstanceState

/-- Plugin SDK `terraform.State`, as far as the check reads it: the map
`s.RootModule().Resources` from resource name to resource state. -/
structure State where
  Resources : GoMap ResourceState

/-- Modelled from the spec: `errs.IsA[T](err)`, whose package `internal/errs` is not among the
sources: whether the error is "a resource's absence", that is whether it or an error it wraps
has the dynamic type `T`. -/
def IsA (goType : String) : GoError → Bool
  | GoError.plain t _ => t == goType
  | GoError.wrap _ cause => IsA goType cause

/-- The call `errs.IsA[*types.NoSuchHostedZone](err)` of source line 99; a nil error is of no
type. -/
def IsA_NoSuchHostedZone (err : Option GoError) : Bool :=
  match err with
  | none => false
  | some e => IsA "*types.NoSuchHostedZone" e

/-- What the check needs from the rest of the provider and from AWS, none of it among the
sources: the error result of `tfroute53.FindResourceRecordSetsForHostedZone` for a zone id
(its output is discarded), the result of `create.Error` for its five arguments (a Go `error`,
so possibly nil), and the constants `names.Route53`, `create.ErrActionCheckingDestroyed` and
`tfroute53.ResNameRecordsExclusive`. -/
structure Deps where
  FindResourceRecordSetsForHostedZone : String → Option GoError
  create_Error : String → String → String → String → GoError → Option GoError
  names_Route53 : String
  ErrActionCheckingDestroyed : String
  ResNameRecordsExclusive : String

/-- Source lines 92-109: the loop of the destroy check over the resources, in the order the
`range` visits them, and the `return nil` after it. -/
def destroyLoop (d : Deps) : List (String × ResourceState) → Option GoError
  | [] => none
  | (_, rs) :: rest =>
    if rs.Type_ ≠ "aws_route53_records_exclusive" then
      destroyLoop d rest
    else
      let zoneID := (rs.Primary.Attributes.get? "zone_id").getD ""
      let err := d.FindResourceRecordSetsForHostedZone zoneID
      if IsA_NoSuchHostedZone err then
        none
      else
        match err with
        | some e =>
          d.create_Error d.names_Route53 d.ErrActionCheckingDestroyed
            d.ResNameRecordsExclusive zoneID e
        | none =>
          d.create_Error d.names_Route53 d.ErrActionCheckingDestroyed
            d.ResNameRecordsExclusive zoneID (errors_New "not destroyed")

/-- Source lines 88-111: `testAccCheckRecordsExclusiveDestroy`, the check function it returns
applied to a state. -/
def testAccCheckRecordsExclusiveDestroy (ρ : RangeOrder ResourceState) (d : Deps) (s : State) :
    Option GoError :=
  destroyLoop d (ρ.visit s.Resources.entries)

end route53_test

/-! ## Sample values for the destroy check -/

/-- A lookup that finds every hosted zone but `Z1`, a `create.Error` that returns a plain
error with a text made of its arguments, and the provider constants. -/
def sampleDeps : route53_test.Deps :=
  { FindResourceRecordSetsForHostedZone := fun zoneID =>
      if zoneID = "Z1" then
        some (GoError.plain "*types.NoSuchHostedZone" "no hosted zone found")
      else none
    create_Error := fun service action resource id gotError =>
      some (errors_New
        (action ++ " " ++ service ++ " " ++ resource ++ " (" ++ id ++ "): " ++ gotError.Error))
    names_Route53 := "Route 53"
    ErrActionCheckingDestroyed := "checking destroyed"
    ResNameRecordsExclusive := "Records Exclusive" }

/-- The hosted zone resource `aws_route53_zone.test` of the test configuration. -/
def sampleZone : route53_test.ResourceState :=
  { Type_ := "aws_route53_zone"
    Primary := { Attributes := GoMap.empty.set "zone_id" "Z2" } }

/-- The resource `aws_route53_records_exclusive.test` of the test configuration, of the
hosted zone `Z2`. -/
def sampleRecords : route53_test.ResourceState :=
  { Type_ := "aws_route53_records_exclusive"
    Primary := { Attributes := GoMap.empty.set "zone_id" "Z2" } }

/-- The state of the test configuration (source lines 140-163): one hosted zone and one
`aws_route53_records_exclusive` resource. -/
def sampleState : route53_test.State :=
  { Resources :=
      (GoMap.empty.set "aws_route53_records_exclusive.test" sampleRecords).set
        "aws_route53_zone.test" sampleZone }

/-! ## Lemmas on maps -/

theorem alookup_eq_none_iff {α : Type} (k : String) (l : List (String × α)) :
    alookup k l = none ↔ k ∉ l.map Prod.fst := by
  induction l with
  | nil => simp [alookup]
  | cons e es ih =>
    by_cases h : e.1 = k
    · simp [alookup, h]
    · have h' : ¬ k = e.1 := fun h'' => h h''.symm
      simp [alookup, h, h', ih]

theorem alookup_eq_some_of_mem_keys {α : Type} (k : String) (l : List (String × α))
    (h : k ∈ l.map Prod.fst) : ∃ v, alookup k l = some v := by
  cases hl : alookup k l with
  | none => exact absurd h ((alookup_eq_none_iff k l).1 hl)
  | some v => exact ⟨v, rfl⟩

theorem alookup_eq_some_iff {α : Type} (k : String) (v : α) (l : List (String × α))
    (hl : (l.map Prod.fst).Nodup) : alookup k l = some v ↔ (k, v) ∈ l := by
  induction l with
  | nil => simp [alookup]
  | cons e es ih =>
    rw [List.map_cons, List.nodup_cons] at hl
    by_cases h : e.1 = k
    · have hk : ∀ w, (k, w) ∉ es := fun w hw => hl.1 (h ▸ List.mem_map.2 ⟨(k, w), hw, rfl⟩)
      obtain ⟨a, b⟩ := e
      simp only at h
      subst h
      simp [alookup, hk v]
      exact eq_comm
    · have h' : ¬ (k, v) = e := fun h'' => h (by rw [← h''])
      simp [alookup, h, h', ih hl.2]

theorem alookup_perm {α : Type} (k : String) {l₁ l₂ : List (String × α)}
    (h₁ : (l₁.map Prod.fst).Nodup) (hp : l₁.Perm l₂) : alookup k l₁ = alookup k l₂ := by
  have h₂ : (l₂.map Prod.fst).Nodup := (hp.map Prod.fst).nodup_iff.1 h₁
  apply Option.ext
  intro v
  rw [Option.mem_def, Option.mem_def, alookup_eq_some_iff k v l₁ h₁,
    alookup_eq_some_iff k v l₂ h₂]
  exact hp.mem_iff

theorem alookup_filter_ne {α : Type} (k k' : String) (l : List (String × α)) :
    alookup k' (l.filter (fun e => decide (e.1 ≠ k))) = if k' = k then none else alookup k' l := by
  induction l with
  | nil => simp [alookup]
  | cons e es ih =>
    rw [List.filter_cons]
    by_cases h : e.1 = k
    · have hd : decide (e.1 ≠ k) = false := by simp [h]
      rw [hd]
      simp only [Bool.false_eq_true, if_false]
      rw [ih]
      by_cases hk : k' = k
      · simp [hk]
      · have : ¬ e.1 = k' := fun h' => hk (h'.symm.trans h)
        simp [hk, alookup, this]
    · have hd : decide (e.1 ≠ k) = true := by simp [h]
      rw [hd]
      simp only [if_true, alookup]
      rw [ih]
      by_cases hk : k' = k
      · subst hk
        simp [h]
      · simp [hk]

namespace GoMap

variable {α β : Type}

theorem get?_eq_some_iff (m : GoMap α) (k : String) (v : α) :
    m.get? k = some v ↔ (k, v) ∈ m.entries :=
  alookup_eq_some_iff k v m.entries m.nodupKeys

theorem get?_eq_none_iff (m : GoMap α) (k : String) : m.get? k = none ↔ k ∉ m.keys :=
  alookup_eq_none_iff k m.entries

theorem mem_keys_iff (m : GoMap α) (k : String) : k ∈ m.keys ↔ ∃ v, m.get? k = some v := by
  constructor
  · exact alookup_eq_some_of_mem_keys k m.entries
  · rintro ⟨v, hv⟩
    exact List.mem_map.2 ⟨(k, v), (m.get?_eq_some_iff k v).1 hv, rfl⟩

theorem get?_set (m : GoMap α) (k : String) (v : α) (k' : String) :
    (m.set k v).get? k' = if k' = k then some v else m.get? k' := by
  unfold get? set
  by_cases h : k' = k
  · simp [alookup, h]
  · have h' : ¬ k = k' := fun h'' => h h''.symm
    simp only [alookup, h', if_false, h]
    rw [alookup_filter_ne]; simp [h]

theorem get?_delete (m : GoMap α) (k k' : String) :
    (m.delete k).get? k' = if k' = k then none else m.get? k' := by
  unfold get? delete
  exact alookup_filter_ne k k' m.entries

theorem get?_filter (p : String → α → Bool) (m : GoMap α) (k : String) :
    (m.filter p).get? k = (m.get? k).filter (p k) := by
  apply Option.ext
  intro v
  rw [Option.mem_def, Option.mem_def, get?_eq_some_iff]
  unfold filter
  simp only [List.mem_filter]
  rw [← get?_eq_some_iff]
  cases h : m.get? k with
  | none => simp [Option.filter]
  | some w =>
    by_cases hw : w = v
    · subst hw; by_cases hp : p k w <;> simp [Option.filter, hp]
    · by_cases hp : p k w <;> simp [Option.filter, hp, hw]

theorem get?_mapValues (f : α → β) (m : GoMap α) (k : String) :
    (m.mapValues f).get? k = (m.get? k).map f := by
  unfold get? mapValues
  simp only
  induction m.entries with
  | nil => simp [alookup]
  | cons e es ih =>
    by_cases h : e.1 = k <;> simp [alookup, h, ih]

theorem entries_nodup (m : GoMap α) : m.entries.Nodup :=
  List.Nodup.of_map Prod.fst m.nodupKeys

theorem entries_perm_of_get?_eq (a b : GoMap α) (h : ∀ k, a.get? k = b.get? k) :
    a.entries.Perm b.entries := by
  rw [List.perm_ext_iff_of_nodup a.entries_nodup b.entries_nodup]
  rintro ⟨k, v⟩
  rw [← get?_eq_some_iff, ← get?_eq_some_iff, h]

theorem get?_foldl_set (l : List (String × α)) (m : GoMap α) (k : String) :
    (l.foldl (fun m e => m.set e.1 e.2) m).get? k =
      (match alookup k l.reverse with
       | some v => some v
       | none => m.get? k) := by
  induction l using List.reverseRecOn with
  | nil => simp [alookup]
  | append_singleton es e ih =>
    rw [List.foldl_append, List.reverse_append]
    simp only [List.foldl_cons, List.foldl_nil, List.reverse_cons, List.reverse_nil,
      List.nil_append, List.singleton_append, alookup]
    rw [get?_set]
    by_cases h : e.1 = k
    · simp [h]
    · have h' : ¬ k = e.1 := fun h'' => h h''.symm
      simp only [h, h', if_false]
      exact ih

theorem get?_foldl_delete (ks : List String) (m : GoMap α) (k : String) :
    (ks.foldl GoMap.delete m).get? k = if k ∈ ks then none else m.get? k := by
  induction ks generalizing m with
  | nil => simp
  | cons a as ih =>
    rw [List.foldl_cons, ih, get?_delete]
    by_cases h : k = a
    · simp [h]
    · by_cases h2 : k ∈ as <;> simp [h, h2]

end GoMap

/-! ## The tag diff of `updateTags` -/

theorem matchesReserved_eq_false_iff (reserved : List String) (k : String) :
    tftags.matchesReserved reserved k = false ↔ ∀ r ∈ reserved, HasPrefix k r = false := by
  unfold tftags.matchesReserved
  rw [List.any_eq_false]
  constructor
  · intro h r hr
    simpa using h r hr
  · intro h r hr
    simp [h r hr]

theorem get?_IgnoreSystem (reserved : String → List String) (tags : tftags.KeyValueTags)
    (serviceName k : String) :
    (tags.IgnoreSystem reserved serviceName).get? k =
      if tftags.matchesReserved (reserved serviceName) k then none else tags.get? k := by
  unfold tftags.KeyValueTags.IgnoreSystem
  rw [GoMap.get?_filter]
  cases h : tftags.matchesReserved (reserved serviceName) k <;>
    cases tags.get? k <;> simp [Option.filter, h]

theorem get?_Removed (tags newTags : tftags.KeyValueTags) (k : String) :
    (tags.Removed newTags).get? k = if newTags.get? k = none then tags.get? k else none := by
  unfold tftags.KeyValueTags.Removed
  rw [GoMap.get?_filter]
  cases h : newTags.get? k <;> cases tags.get? k <;> simp [Option.filter, h]

theorem get?_Updated (tags newTags : tftags.KeyValueTags) (k : String) :
    (tags.Updated newTags).get? k =
      if newTags.get? k = tags.get? k then none else newTags.get? k := by
  unfold tftags.KeyValueTags.Updated
  rw [GoMap.get?_filter]
  cases h : newTags.get? k with
  | none => simp [Option.filter]
  | some v =>
    by_cases hv : tags.get? k = some v
    · simp [Option.filter, hv]
    · have hv' : ¬ some v = tags.get? k := fun h' => hv h'.symm
      simp [Option.filter, hv, hv']

/-- C1: the removed set computed by `updateTags` (`oldTags.Removed(newTags)` followed by
`IgnoreSystem` for the CodeArtifact service) is a set of keys, and a key is in it exactly when
it is present in old, absent from new and matches no reserved prefix of the service. -/
theorem removedTags_eq_old_minus_new_minus_system (p : codeartifact.Provider)
    (old new : tftags.KeyValueTags) :
    (codeartifact.removedTags p (tftags.KeyValueTags.New old)
        (tftags.KeyValueTags.New new)).keys.Nodup ∧
    ∀ k : String,
      k ∈ (codeartifact.removedTags p (tftags.KeyValueTags.New old)
            (tftags.KeyValueTags.New new)).keys ↔
        (k ∈ old.keys ∧ k ∉ new.keys ∧
          ∀ r ∈ p.reserved p.names_CodeArtifact, HasPrefix k r = false) := by
  refine ⟨GoMap.nodupKeys _, fun k => ?_⟩
  rw [GoMap.mem_keys_iff, GoMap.mem_keys_iff, ← GoMap.get?_eq_none_iff,
    ← matchesReserved_eq_false_iff]
  unfold codeartifact.removedTags tftags.KeyValueTags.New
  simp only [get?_IgnoreSystem, get?_Removed]
  cases hs : tftags.matchesReserved (p.reserved p.names_CodeArtifact) k <;>
    cases hn : GoMap.get? new k <;> simp

/-- C2: the updated set computed by `updateTags` (`oldTags.Updated(newTags)` followed by
`IgnoreSystem` for the CodeArtifact service) holds the entry `k = v` exactly when new holds
it, the key `k` is absent from old or has another value in old, and `k` matches no reserved
prefix of the service. -/
theorem updatedTags_eq_new_differing_minus_system (p : codeartifact.Provider)
    (old new : tftags.KeyValueTags) (k v : String) :
    (codeartifact.updatedTags p (tftags.KeyValueTags.New old)
        (tftags.KeyValueTags.New new)).get? k = some v ↔
      (new.get? k = some v ∧
        (k ∉ old.keys ∨ ∃ w, old.get? k = some w ∧ w ≠ v) ∧
        ∀ r ∈ p.reserved p.names_CodeArtifact, HasPrefix k r = false) := by
  rw [← GoMap.get?_eq_none_iff, ← matchesReserved_eq_false_iff]
  unfold codeartifact.updatedTags tftags.KeyValueTags.New
  simp only [get?_IgnoreSystem, get?_Updated]
  cases hs : tftags.matchesReserved (p.reserved p.names_CodeArtifact) k <;>
    cases hn : GoMap.get? new k <;> cases ho : GoMap.get? old k <;> simp
  rename_i a b
  constructor
  · rintro ⟨h1, h2⟩
    subst h2
    exact ⟨rfl, fun h => h1 h.symm⟩
  · rintro ⟨h1, h2⟩
    subst h1
    exact ⟨fun h => h2 h.symm, rfl⟩

theorem alookup_reverse_visit (ρ : RangeOrder String) (m : GoMap String) (k : String) :
    alookup k (ρ.visit m.entries).reverse = m.get? k :=
  (alookup_perm k m.nodupKeys
    ((List.reverse_perm (ρ.visit m.entries)).trans (ρ.isPerm m.entries)).symm).symm

theorem mem_Keys_iff (ρ : RangeOrder String) (tags : tftags.KeyValueTags) (k : String) :
    k ∈ tags.Keys ρ ↔ k ∈ tags.keys :=
  ((ρ.isPerm tags.entries).map Prod.fst).mem_iff

/-- C3: deleting from old the keys of the removed set of `updateTags` and then inserting the
entries of its updated set (both taken in any order a `range` may give) yields a tag set
whose restriction to the keys matching no reserved prefix is the same map as the restriction
of new to those keys. -/
theorem removed_then_updated_yields_new (p : codeartifact.Provider) (ρ : RangeOrder String)
    (old new : tftags.KeyValueTags) (k : String) :
    ((tagged
        (untagged old
          ((codeartifact.removedTags p (tftags.KeyValueTags.New old)
            (tftags.KeyValueTags.New new)).Keys ρ))
        (ρ.visit (codeartifact.updatedTags p (tftags.KeyValueTags.New old)
            (tftags.KeyValueTags.New new)).entries)).IgnoreSystem
          p.reserved p.names_CodeArtifact).get? k =
      (new.IgnoreSystem p.reserved p.names_CodeArtifact).get? k := by
  rw [get?_IgnoreSystem, get?_IgnoreSystem]
  cases hs : tftags.matchesReserved (p.reserved p.names_CodeArtifact) k
  · simp only [Bool.false_eq_true, if_false]
    unfold tagged untagged
    rw [GoMap.get?_foldl_set, alookup_reverse_visit, GoMap.get?_foldl_delete]
    have hR : (k ∈ (codeartifact.removedTags p (tftags.KeyValueTags.New old)
          (tftags.KeyValueTags.New new)).Keys ρ) ↔
        (GoMap.get? new k = none ∧ ∃ v, GoMap.get? old k = some v) := by
      rw [mem_Keys_iff, GoMap.mem_keys_iff]
      unfold codeartifact.removedTags tftags.KeyValueTags.New
      simp only [get?_IgnoreSystem, get?_Removed, hs]
      cases hn : GoMap.get? new k <;> simp
    have hU : GoMap.get? (codeartifact.updatedTags p (tftags.KeyValueTags.New old)
          (tftags.KeyValueTags.New new)) k =
        if GoMap.get? new k = GoMap.get? old k then none else GoMap.get? new k := by
      unfold codeartifact.updatedTags tftags.KeyValueTags.New
      simp only [get?_IgnoreSystem, get?_Updated, hs]
      simp
    rw [hU]
    by_cases hk : k ∈ (codeartifact.removedTags p (tftags.KeyValueTags.New old)
          (tftags.KeyValueTags.New new)).Keys ρ
    · obtain ⟨h1, v, h2⟩ := hR.1 hk
      simp [hk, h1, h2]
    · rw [if_neg hk]
      rw [hR] at hk
      cases hn : GoMap.get? new k <;> cases ho : GoMap.get? old k <;> simp_all
      rename_i a b
      by_cases hab : a = b <;> simp [hab]
  · simp

/-! ## The requests and the result of `updateTags` -/

theorem len_pos_iff_keys_ne_nil {α : Type} (m : GoMap α) : m.len > 0 ↔ m.keys ≠ [] := by
  unfold GoMap.len GoMap.keys
  cases m.entries <;> simp

theorem Tags_perm (ρ : RangeOrder String) (tags : tftags.KeyValueTags) :
    (codeartifact.Tags ρ tags).Perm
      (tags.entries.map (fun e => ({ Key := some e.1, Value := some e.2 } : codeartifact.Tag))) :=
  (ρ.isPerm tags.entries).map _

/-- C4: the requests of `updateTags`, in order, are: one `UntagResource` request exactly when
the removed set is non-empty, then, unless that request failed, one `TagResource` request
exactly when the updated set is non-empty; nothing else. Both carry the identifier as
`ResourceArn`; `TagKeys` lists exactly the keys of the removed set and `Tags` exactly the
entries of the updated set, each once. -/
theorem updateTags_requests (p : codeartifact.Provider) (ρ : RangeOrder String)
    (conn : codeartifact.CodeArtifactAPI) (identifier : String)
    (old new : tftags.KeyValueTags) :
    let R := codeartifact.removedTags p (tftags.KeyValueTags.New old)
      (tftags.KeyValueTags.New new)
    let U := codeartifact.updatedTags p (tftags.KeyValueTags.New old)
      (tftags.KeyValueTags.New new)
    let untagInput : codeartifact.UntagResourceInput :=
      { ResourceArn := some identifier, TagKeys := aws_StringSlice (R.Keys ρ) }
    let tagInput : codeartifact.TagResourceInput :=
      { ResourceArn := some identifier, Tags := codeartifact.Tags ρ U }
    (codeartifact.updateTags p ρ conn identifier old new).1 =
        (if R.keys = [] then [] else [codeartifact.ApiCall.UntagResource untagInput]) ++
        (if (R.keys ≠ [] ∧ (conn.UntagResourceWithContext untagInput).isSome) ∨ U.keys = []
          then [] else [codeartifact.ApiCall.TagResource tagInput]) ∧
      untagInput.TagKeys.Perm (R.keys.map some) ∧
      tagInput.Tags.Perm
        (U.entries.map (fun e => ({ Key := some e.1, Value := some e.2 } : codeartifact.Tag))) := by
  intro R U untagInput tagInput
  refine ⟨?_, ((ρ.isPerm R.entries).map Prod.fst).map some, Tags_perm ρ U⟩
  have hR := len_pos_iff_keys_ne_nil R
  have hU := len_pos_iff_keys_ne_nil U
  unfold codeartifact.updateTags codeartifact.updateTags_tag
  simp only
  by_cases h1 : R.keys = []
  · have h1' : ¬ R.len > 0 := fun h => (hR.1 h) h1
    rw [if_neg h1', if_pos h1]
    by_cases h2 : U.keys = []
    · have h2' : ¬ U.len > 0 := fun h => (hU.1 h) h2
      rw [if_neg h2']
      simp [h1, h2]
    · have h2' : U.len > 0 := hU.2 h2
      rw [if_pos h2']
      cases h3 : conn.TagResourceWithContext tagInput <;> simp [h1, h2]
  · have h1' : R.len > 0 := hR.2 h1
    rw [if_pos h1', if_neg h1]
    cases h4 : conn.UntagResourceWithContext untagInput with
    | some err => simp [h1]
    | none =>
      by_cases h2 : U.keys = []
      · have h2' : ¬ U.len > 0 := fun h => (hU.1 h) h2
        simp [h1, h2, h2']
      · have h2' : U.len > 0 := hU.2 h2
        simp only [h2', if_true]
        cases h3 : conn.TagResourceWithContext tagInput <;> simp [h1, h2]

/-- C5: `updateTags` returns an error exactly when a request it issued failed. A failed
`UntagResource` request is the only request issued and gives the error that wraps the failure
with the text "untagging resource (identifier): failure"; a failed `TagResource` request
gives the error that wraps the failure with the text "tagging resource (identifier):
failure"; a failed request is the last one issued and no request is issued twice; when no
request fails, also when none is issued, the result is nil. -/
theorem updateTags_result (p : codeartifact.Provider) (ρ : RangeOrder String)
    (conn : codeartifact.CodeArtifactAPI) (identifier : String)
    (old new : tftags.KeyValueTags) :
    let run := codeartifact.updateTags p ρ conn identifier old new
    (run.2.isSome ↔ ∃ c ∈ run.1, (conn.errorOf c).isSome) ∧
    (∀ input err, codeartifact.ApiCall.UntagResource input ∈ run.1 →
      conn.UntagResourceWithContext input = some err →
        run = ([codeartifact.ApiCall.UntagResource input],
          some (GoError.wrap ("untagging resource (" ++ identifier ++ "): " ++ err.Error) err))) ∧
    (∀ input err, codeartifact.ApiCall.TagResource input ∈ run.1 →
      conn.TagResourceWithContext input = some err →
        run.2 =
          some (GoError.wrap ("tagging resource (" ++ identifier ++ "): " ++ err.Error) err)) ∧
    (∀ c ∈ run.1, (conn.errorOf c).isSome → run.1.getLast? = some c) ∧
    run.1.Nodup ∧
    ((∀ c ∈ run.1, conn.errorOf c = none) → run.2 = none) := by
  intro run
  have hrun : run = codeartifact.updateTags p ρ conn identifier old new := rfl
  unfold codeartifact.updateTags codeartifact.updateTags_tag at hrun
  simp only at hrun
  split at hrun
  · split at hrun
    · rename_i err h4
      rw [hrun]
      simp [codeartifact.CodeArtifactAPI.errorOf, h4]
      intro input e hi he
      subst hi
      rw [h4] at he
      injection he with he
      subst he
      simp
    · rename_i h4
      split at hrun
      · split at hrun
        · rename_i err h3
          rw [hrun]
          simp [codeartifact.CodeArtifactAPI.errorOf, h4, h3]
          refine ⟨?_, ?_⟩
          · intro input e hi he
            subst hi
            rw [h4] at he
            exact absurd he (by simp)
          · intro input e hi he
            subst hi
            rw [h3] at he
            injection he with he
            subst he
            simp
        · rename_i h3
          rw [hrun]
          simp [codeartifact.CodeArtifactAPI.errorOf, h4, h3]
          refine ⟨?_, ?_⟩
          · intro input e hi he
            subst hi
            rw [h4] at he
            exact absurd he (by simp)
          · intro input e hi he
            subst hi
            rw [h3] at he
            exact absurd he (by simp)
      · rw [hrun]
        simp [codeartifact.CodeArtifactAPI.errorOf, h4]
        intro input e hi he
        subst hi
        rw [h4] at he
        exact absurd he (by simp)
  · split at hrun
    · split at hrun
      · rename_i err h3
        rw [hrun]
        simp [codeartifact.CodeArtifactAPI.errorOf, h3]
        intro input e hi he
        subst hi
        rw [h3] at he
        injection he with he
        subst he
        simp
      · rename_i h3
        rw [hrun]
        simp [codeartifact.CodeArtifactAPI.errorOf, h3]
        intro input e hi he
        subst hi
        rw [h3] at he
        exact absurd he (by simp)
    · rw [hrun]
      simp

/-! ## Determinism of `updateTags` -/

/-- C6, counterexample: with old empty and new `a = 1, b = 2`, and a service that answers
every request with success, a run whose `range` visits the entries in one order and a run
whose `range` visits them in the opposite order issue `TagResource` requests whose `Tags`
differ in the order of the entries. -/
theorem updateTags_order_of_Tags_not_fixed :
    codeartifact.updateTags sampleProvider inOrder (fixedResponses none none) "arn"
        GoMap.empty sampleTags =
      ([codeartifact.ApiCall.TagResource
          { ResourceArn := some "arn"
            Tags := [{ Key := some "a", Value := some "1" },
                     { Key := some "b", Value := some "2" }] }], none) ∧
    codeartifact.updateTags sampleProvider reversed (fixedResponses none none) "arn"
        GoMap.empty sampleTags =
      ([codeartifact.ApiCall.TagResource
          { ResourceArn := some "arn"
            Tags := [{ Key := some "b", Value := some "2" },
                     { Key := some "a", Value := some "1" }] }], none) ∧
    codeartifact.updateTags sampleProvider inOrder (fixedResponses none none) "arn"
        GoMap.empty sampleTags ≠
      codeartifact.updateTags sampleProvider reversed (fixedResponses none none) "arn"
        GoMap.empty sampleTags := by
  decide

/-- C6, amended: for fixed answers of the untag and tag requests, two runs of `updateTags` on
the same identifier, old and new tag sets return the same result and issue the same sequence
of requests (same operation, same `ResourceArn`) whose `TagKeys` and `Tags` hold the same
entries, possibly in another order, whatever order each `range` over a map takes. -/
theorem updateTags_deterministic_up_to_order (p : codeartifact.Provider)
    (ρ₁ ρ₂ : RangeOrder String) (untagResponse tagResponse : Option GoError)
    (identifier : String) (old new : tftags.KeyValueTags) :
    (codeartifact.updateTags p ρ₁ (fixedResponses untagResponse tagResponse)
        identifier old new).2 =
      (codeartifact.updateTags p ρ₂ (fixedResponses untagResponse tagResponse)
        identifier old new).2 ∧
    List.Forall₂ SameUpToOrder
      (codeartifact.updateTags p ρ₁ (fixedResponses untagResponse tagResponse)
        identifier old new).1
      (codeartifact.updateTags p ρ₂ (fixedResponses untagResponse tagResponse)
        identifier old new).1 := by
  have hK : ∀ t : tftags.KeyValueTags,
      (aws_StringSlice (t.Keys ρ₁)).Perm (aws_StringSlice (t.Keys ρ₂)) := fun t =>
    ((((ρ₁.isPerm t.entries).trans (ρ₂.isPerm t.entries).symm).map Prod.fst).map some)
  have hT : ∀ t : tftags.KeyValueTags,
      (codeartifact.Tags ρ₁ t).Perm (codeartifact.Tags ρ₂ t) := fun t =>
    (Tags_perm ρ₁ t).trans (Tags_perm ρ₂ t).symm
  unfold codeartifact.updateTags codeartifact.updateTags_tag fixedResponses
  simp only
  by_cases hR : (codeartifact.removedTags p (tftags.KeyValueTags.New old)
      (tftags.KeyValueTags.New new)).len > 0 <;>
    by_cases hU : (codeartifact.updatedTags p (tftags.KeyValueTags.New old)
      (tftags.KeyValueTags.New new)).len > 0 <;>
    cases untagResponse <;> cases tagResponse <;>
    simp [hR, hU, SameUpToOrder, hK, hT]

/-! ## `ListTags`, `getTagsIn`, `Tags` and `KeyValueTags` -/

theorem Tags_length (ρ : RangeOrder String) (tags : tftags.KeyValueTags) :
    (codeartifact.Tags ρ tags).length = tags.len := by
  rw [(Tags_perm ρ tags).length_eq, List.length_map]
  rfl

/-- C7: when `ListTagsForResource` succeeds with the tag list `L` and the context carries a
tag context, `ListTags` returns nil and sets `TagsOut` to `Some(KeyValueTags(L))`, with
`TagsIn` and every other field as before; when the call fails with `err`, `ListTags` returns
`err` itself, the context is as before, and `listTags` returns the empty tag set next to
`err`; when the context carries no tag context, a successful call returns nil and the context
is as before. The request carries the identifier as `ResourceArn`. -/
theorem ListTags_sets_TagsOut {Rest : Type} (conn : codeartifact.CodeArtifactAPI)
    (identifier : String) :
    (∀ (L : List codeartifact.Tag) (inContext : tftags.InContext Rest),
      conn.ListTagsForResourceWithContext { ResourceArn := some identifier } = .ok { Tags := L } →
        ∃ after : tftags.InContext Rest,
          codeartifact.ListTags conn (some inContext) identifier = (none, some after) ∧
          after.TagsOut = some (codeartifact.KeyValueTags L) ∧
          after.TagsIn = inContext.TagsIn ∧ after.rest = inContext.rest) ∧
    (∀ (err : GoError) (ctx : tftags.Context Rest),
      conn.ListTagsForResourceWithContext { ResourceArn := some identifier } = .error err →
        codeartifact.ListTags conn ctx identifier = (some err, ctx) ∧
        (codeartifact.listTags conn identifier).2 = some err ∧
        (codeartifact.listTags conn identifier).1.entries = []) ∧
    (∀ (L : List codeartifact.Tag),
      conn.ListTagsForResourceWithContext { ResourceArn := some identifier } = .ok { Tags := L } →
        codeartifact.ListTags conn (none : tftags.Context Rest) identifier = (none, none)) := by
  refine ⟨?_, ?_, ?_⟩
  · intro L inContext h
    refine ⟨{ inContext with TagsOut := some (codeartifact.KeyValueTags L) }, ?_, rfl, rfl, rfl⟩
    simp [codeartifact.ListTags, codeartifact.listTags, h, tftags.FromContext]
  · intro err ctx h
    simp [codeartifact.ListTags, codeartifact.listTags, h, tftags.KeyValueTags.New_nil,
      GoMap.empty]
  · intro L h
    simp [codeartifact.ListTags, codeartifact.listTags, h, tftags.FromContext]

/-- C7, witness: a service that answers with the tags `a = 1` and a context whose tag context
holds the input tags `a = 1, b = 2` and no output tags. -/
theorem ListTags_sets_TagsOut_witness :
    ∃ after : tftags.InContext Nat,
      codeartifact.ListTags
          { ListTagsForResourceWithContext := fun _ =>
              .ok { Tags := [{ Key := some "a", Value := some "1" }] }
            UntagResourceWithContext := fun _ => none
            TagResourceWithContext := fun _ => none }
          (some { rest := 7, TagsIn := some sampleTags, TagsOut := none }) "arn" =
        (none, some after) ∧
      after.TagsOut = some (codeartifact.KeyValueTags [{ Key := some "a", Value := some "1" }]) ∧
      after.TagsIn = some sampleTags ∧ after.rest = 7 :=
  (ListTags_sets_TagsOut
    { ListTagsForResourceWithContext := fun _ =>
        .ok { Tags := [{ Key := some "a", Value := some "1" }] }
      UntagResourceWithContext := fun _ => none
      TagResourceWithContext := fun _ => none } "arn").1
    [{ Key := some "a", Value := some "1" }]
    { rest := 7, TagsIn := some sampleTags, TagsOut := none } rfl

/-- C8: `getTagsIn` returns nil when the context carries no tag context, when `TagsIn` is
unset and when `TagsIn` is an empty tag set; otherwise it returns `Tags(TagsIn)`, a non-empty
list with one entry per input tag; it never returns a non-nil empty list. -/
theorem getTagsIn_nil_iff_no_input_tags {Rest : Type} (ρ : RangeOrder String) :
    codeartifact.getTagsIn ρ (none : tftags.Context Rest) = none ∧
    (∀ inContext : tftags.InContext Rest, inContext.TagsIn = none →
      codeartifact.getTagsIn ρ (some inContext) = none) ∧
    (∀ (inContext : tftags.InContext Rest) (tags : tftags.KeyValueTags),
      inContext.TagsIn = some tags → tags.keys = [] →
        codeartifact.getTagsIn ρ (some inContext) = none) ∧
    (∀ (inContext : tftags.InContext Rest) (tags : tftags.KeyValueTags),
      inContext.TagsIn = some tags → tags.keys ≠ [] →
        codeartifact.getTagsIn ρ (some inContext) = some (codeartifact.Tags ρ tags) ∧
        codeartifact.Tags ρ tags ≠ [] ∧
        (codeartifact.Tags ρ tags).length = tags.len ∧
        (codeartifact.Tags ρ tags).Perm
          (tags.entries.map
            (fun e => ({ Key := some e.1, Value := some e.2 } : codeartifact.Tag)))) ∧
    (∀ ctx : tftags.Context Rest, codeartifact.getTagsIn ρ ctx ≠ some []) := by
  refine ⟨rfl, ?_, ?_, ?_, ?_⟩
  · intro inContext h
    have h0 : (codeartifact.Tags ρ GoMap.empty).length = 0 := by
      rw [Tags_length]; rfl
    simp [codeartifact.getTagsIn, tftags.FromContext, h, UnwrapOrDefault]
    exact List.length_eq_zero.1 h0
  · intro inContext tags h hk
    have h0 : (codeartifact.Tags ρ tags).length = 0 := by
      rw [Tags_length]
      by_contra hne
      exact (len_pos_iff_keys_ne_nil tags).1 (Nat.pos_of_ne_zero hne) hk
    simp [codeartifact.getTagsIn, tftags.FromContext, h, UnwrapOrDefault]
    exact List.length_eq_zero.1 h0
  · intro inContext tags h hk
    have hpos : (codeartifact.Tags ρ tags).length > 0 := by
      rw [Tags_length]
      exact (len_pos_iff_keys_ne_nil tags).2 hk
    refine ⟨?_, ?_, Tags_length ρ tags, Tags_perm ρ tags⟩
    · simp only [codeartifact.getTagsIn, tftags.FromContext, h, UnwrapOrDefault, Option.getD_some]
      rw [if_pos hpos]
    · intro hnil
      rw [hnil] at hpos
      exact absurd hpos (by simp)
  · intro ctx h
    unfold codeartifact.getTagsIn at h
    split at h
    · simp only at h
      split at h
      · rename_i hpos
        injection h with h
        rw [h] at hpos
        exact absurd hpos (by simp)
      · exact absurd h (by simp)
    · exact absurd h (by simp)

theorem alookup_map_snd {α β : Type} (f : α → β) (k : String) (l : List (String × α)) :
    alookup k (l.map (fun e => (e.1, f e.2))) = (alookup k l).map f := by
  induction l with
  | nil => simp [alookup]
  | cons e es ih =>
    by_cases h : e.1 = k <;> simp [alookup, h, ih]

theorem foldl_set_Tags (l : List (String × String)) (m : GoMap (Option String)) :
    (l.map (fun e => ({ Key := some e.1, Value := some e.2 } : codeartifact.Tag))).foldl
        (fun m tag => m.set (aws_StringValue tag.Key) tag.Value) m =
      (l.map (fun e => (e.1, some e.2))).foldl (fun m e => m.set e.1 e.2) m := by
  induction l generalizing m with
  | nil => rfl
  | cons e es ih =>
    simp only [List.map_cons, List.foldl_cons]
    rw [ih]
    rfl

theorem get?_KeyValueTags_Tags (ρ : RangeOrder String) (tags : tftags.KeyValueTags)
    (k : String) :
    (codeartifact.KeyValueTags (codeartifact.Tags ρ tags)).get? k = tags.get? k := by
  unfold codeartifact.KeyValueTags codeartifact.Tags tftags.KeyValueTags.New_ptrs
    tftags.KeyValueTags.Map
  simp only
  rw [GoMap.get?_mapValues, foldl_set_Tags, GoMap.get?_foldl_set, ← List.map_reverse,
    alookup_map_snd, alookup_reverse_visit]
  cases h : GoMap.get? tags k <;> simp [aws_StringValue, GoMap.get?, GoMap.empty, alookup]

/-- C10: for every tag set `t`, `Tags(t)` is a list of `len(t)` entries with pairwise distinct
keys, holding exactly one entry per key of `t` with that key and its value; the tag set
`KeyValueTags(ctx, Tags(t))` has the same key to value map as `t`, and `Tags` of it holds the
same entries as `Tags(t)`; the empty tag set gives the empty list and the empty list the
empty tag set. -/
theorem Tags_KeyValueTags_inverse (ρ ρ' : RangeOrder String) (t : tftags.KeyValueTags) :
    (codeartifact.Tags ρ t).length = t.len ∧
    ((codeartifact.Tags ρ t).map (fun tag => tag.Key)).Nodup ∧
    (∀ tag : codeartifact.Tag,
      tag ∈ codeartifact.Tags ρ t ↔
        ∃ k v, t.get? k = some v ∧ tag = { Key := some k, Value := some v }) ∧
    (∀ k : String, (codeartifact.KeyValueTags (codeartifact.Tags ρ t)).get? k = t.get? k) ∧
    (codeartifact.Tags ρ' (codeartifact.KeyValueTags (codeartifact.Tags ρ t))).Perm
      (codeartifact.Tags ρ t) ∧
    codeartifact.Tags ρ GoMap.empty = [] ∧
    (codeartifact.KeyValueTags []).entries = [] := by
  refine ⟨Tags_length ρ t, ?_, ?_, get?_KeyValueTags_Tags ρ t, ?_, ?_, rfl⟩
  · have h : (codeartifact.Tags ρ t).map (fun tag => tag.Key) =
        ((ρ.visit t.entries).map Prod.fst).map some := by
      unfold codeartifact.Tags tftags.KeyValueTags.Map
      simp [List.map_map, Function.comp_def]
    rw [h]
    exact (((ρ.isPerm t.entries).map Prod.fst).nodup_iff.2 t.nodupKeys).map
      (Option.some_injective String)
  · intro tag
    rw [(Tags_perm ρ t).mem_iff, List.mem_map]
    constructor
    · rintro ⟨⟨k, v⟩, he, rfl⟩
      exact ⟨k, v, (t.get?_eq_some_iff k v).2 he, rfl⟩
    · rintro ⟨k, v, hkv, rfl⟩
      exact ⟨(k, v), (t.get?_eq_some_iff k v).1 hkv, rfl⟩
  · exact ((Tags_perm ρ' _).trans
      ((GoMap.entries_perm_of_get?_eq _ t (get?_KeyValueTags_Tags ρ t)).map _)).trans
      (Tags_perm ρ t).symm
  · have h0 : (codeartifact.Tags ρ GoMap.empty).length = 0 := by
      rw [Tags_length]; rfl
    exact List.length_eq_zero.1 h0

/-! ## The destroy check of the Route53 records-exclusive resource -/

theorem destroyLoop_cons_other (d : route53_test.Deps) (name : String)
    (rs : route53_test.ResourceState) (rest : List (String × route53_test.ResourceState))
    (h : rs.Type_ ≠ "aws_route53_records_exclusive") :
    route53_test.destroyLoop d ((name, rs) :: rest) = route53_test.destroyLoop d rest := by
  rw [route53_test.destroyLoop, if_pos h]

theorem destroyLoop_cons_records (d : route53_test.Deps) (name : String)
    (rs : route53_test.ResourceState) (rest : List (String × route53_test.ResourceState))
    (h : rs.Type_ = "aws_route53_records_exclusive") :
    route53_test.destroyLoop d ((name, rs) :: rest) =
      route53_test.destroyLoop d [(name, rs)] := by
  have hn : ¬ rs.Type_ ≠ "aws_route53_records_exclusive" := fun h' => h' h
  rw [route53_test.destroyLoop, route53_test.destroyLoop, if_neg hn, if_neg hn]

theorem destroyLoop_filter (d : route53_test.Deps)
    (l : List (String × route53_test.ResourceState)) :
    route53_test.destroyLoop d l =
      route53_test.destroyLoop d
        (l.filter (fun e => decide (e.2.Type_ = "aws_route53_records_exclusive"))) := by
  induction l with
  | nil => rfl
  | cons e es ih =>
    obtain ⟨name, rs⟩ := e
    by_cases h : rs.Type_ = "aws_route53_records_exclusive"
    · rw [List.filter_cons_of_pos (by simpa using h)]
      exact (destroyLoop_cons_records d name rs es h).trans
        (destroyLoop_cons_records d name rs _ h).symm
    · rw [List.filter_cons_of_neg (by simpa using h), destroyLoop_cons_other d name rs es h]
      exact ih

theorem destroyLoop_only_resource (d : route53_test.Deps)
    (l : List (String × route53_test.ResourceState)) (x : String × route53_test.ResourceState)
    (hx : x ∈ l) (ht : x.2.Type_ = "aws_route53_records_exclusive")
    (honly : ∀ e ∈ l, e.2.Type_ = "aws_route53_records_exclusive" → e = x) :
    route53_test.destroyLoop d l = route53_test.destroyLoop d [x] := by
  induction l with
  | nil => exact absurd hx (List.not_mem_nil _)
  | cons e es ih =>
    obtain ⟨name, rs⟩ := e
    by_cases h : rs.Type_ = "aws_route53_records_exclusive"
    · have he : (name, rs) = x := honly (name, rs) (List.mem_cons_self _ _) h
      rw [← he]
      exact destroyLoop_cons_records d name rs es h
    · rw [destroyLoop_cons_other d name rs es h]
      have hx' : x ∈ es := by
        rcases List.mem_cons.1 hx with hxe | hxe
        · rw [hxe] at ht
          exact absurd ht h
        · exact hxe
      exact ih hx' (fun e he => honly e (List.mem_cons_of_mem _ he))

/-- C9: in the destroy check, for a state containing an `aws_route53_records_exclusive`
resource (the one such resource of the state) and every order of the `range` over the
resources, the check returns nil when the lookup of the record sets of its `zone_id` fails
with NoSuchHostedZone, returns the non-nil error `create.Error` makes of the underlying
error when the lookup fails with any other error, and returns the non-nil error
`create.Error` makes of "not destroyed" when the lookup succeeds; resources of every other
type are skipped (the result is that of the loop over the resources of that type alone), and
a state with no such resource yields nil. `create.Error` is taken never to return nil. -/
theorem destroy_check_absence_is_success (ρ : RangeOrder route53_test.ResourceState)
    (d : route53_test.Deps) (s : route53_test.State)
    (hcreate : ∀ (service action resource id : String) (gotError : GoError),
      d.create_Error service action resource id gotError ≠ none) :
    ((∀ e ∈ s.Resources.entries, e.2.Type_ ≠ "aws_route53_records_exclusive") →
      route53_test.testAccCheckRecordsExclusiveDestroy ρ d s = none) ∧
    route53_test.testAccCheckRecordsExclusiveDestroy ρ d s =
      route53_test.destroyLoop d
        ((ρ.visit s.Resources.entries).filter
          (fun e => decide (e.2.Type_ = "aws_route53_records_exclusive"))) ∧
    (∀ (name : String) (rs : route53_test.ResourceState),
      (name, rs) ∈ s.Resources.entries →
      rs.Type_ = "aws_route53_records_exclusive" →
      (∀ e ∈ s.Resources.entries,
        e.2.Type_ = "aws_route53_records_exclusive" → e = (name, rs)) →
        (route53_test.IsA_NoSuchHostedZone (d.FindResourceRecordSetsForHostedZone
            ((rs.Primary.Attributes.get? "zone_id").getD "")) = true →
          route53_test.testAccCheckRecordsExclusiveDestroy ρ d s = none) ∧
        (∀ err : GoError,
          d.FindResourceRecordSetsForHostedZone
            ((rs.Primary.Attributes.get? "zone_id").getD "") = some err →
          route53_test.IsA "*types.NoSuchHostedZone" err = false →
            route53_test.testAccCheckRecordsExclusiveDestroy ρ d s ≠ none ∧
            route53_test.testAccCheckRecordsExclusiveDestroy ρ d s =
              d.create_Error d.names_Route53 d.ErrActionCheckingDestroyed
                d.ResNameRecordsExclusive ((rs.Primary.Attributes.get? "zone_id").getD "")
                err) ∧
        (d.FindResourceRecordSetsForHostedZone
            ((rs.Primary.Attributes.get? "zone_id").getD "") = none →
          route53_test.testAccCheckRecordsExclusiveDestroy ρ d s ≠ none ∧
          route53_test.testAccCheckRecordsExclusiveDestroy ρ d s =
            d.create_Error d.names_Route53 d.ErrActionCheckingDestroyed
              d.ResNameRecordsExclusive ((rs.Primary.Attributes.get? "zone_id").getD "")
              (errors_New "not destroyed"))) := by
  refine ⟨?_, destroyLoop_filter d _, ?_⟩
  · intro h
    unfold route53_test.testAccCheckRecordsExclusiveDestroy
    rw [destroyLoop_filter]
    have hnil : (ρ.visit s.Resources.entries).filter
        (fun e => decide (e.2.Type_ = "aws_route53_records_exclusive")) = [] := by
      rw [List.filter_eq_nil_iff]
      intro e he
      simpa using h e ((ρ.isPerm s.Resources.entries).mem_iff.1 he)
    rw [hnil]
    rfl
  · intro name rs hmem hrs honly
    have hloop : route53_test.testAccCheckRecordsExclusiveDestroy ρ d s =
        route53_test.destroyLoop d [(name, rs)] := by
      unfold route53_test.testAccCheckRecordsExclusiveDestroy
      exact destroyLoop_only_resource d _ (name, rs)
        ((ρ.isPerm s.Resources.entries).mem_iff.2 hmem) hrs
        (fun e he => honly e ((ρ.isPerm s.Resources.entries).mem_iff.1 he))
    rw [hloop, route53_test.destroyLoop]
    have hn : ¬ rs.Type_ ≠ "aws_route53_records_exclusive" := fun h => h hrs
    rw [if_neg hn]
    refine ⟨?_, ?_, ?_⟩
    · intro h
      simp [h]
    · intro err h1 h2
      simp [h1, route53_test.IsA_NoSuchHostedZone, h2, hcreate]
    · intro h
      simp [h, route53_test.IsA_NoSuchHostedZone, hcreate]

/-! ## The theorems at sample values -/

/-- C5, witness: old is `a = 1, aws:x = y, c = 3`, new is `a = 1, b = 2`, and the service
refuses the untag request: the only request is the untag request for the key `c`, and the
result wraps the failure with the text "untagging resource (arn): AccessDenied". -/
theorem updateTags_result_witness :
    codeartifact.updateTags sampleProvider inOrder (fixedResponses (some sampleError) none)
        "arn" sampleOldTags sampleTags =
      ([codeartifact.ApiCall.UntagResource
          { ResourceArn := some "arn", TagKeys := [some "c"] }],
        some (GoError.wrap "untagging resource (arn): AccessDenied" sampleError)) :=
  (updateTags_result sampleProvider inOrder (fixedResponses (some sampleError) none)
      "arn" sampleOldTags sampleTags).2.1
    { ResourceArn := some "arn", TagKeys := [some "c"] } sampleError (by decide) rfl

/-- C8, witness: a tag context whose input tags are `a = 1, b = 2`. -/
theorem getTagsIn_witness :
    codeartifact.getTagsIn inOrder
        (some ({ rest := 7, TagsIn := some sampleTags, TagsOut := none } :
          tftags.InContext Nat)) =
      some [{ Key := some "a", Value := some "1" }, { Key := some "b", Value := some "2" }] :=
  ((getTagsIn_nil_iff_no_input_tags inOrder).2.2.2.1
    ({ rest := 7, TagsIn := some sampleTags, TagsOut := none } : tftags.InContext Nat)
    sampleTags rfl (by decide)).1

/-- C9, witness: the state of the test configuration, whose one
`aws_route53_records_exclusive` resource is of the hosted zone `Z2`, which the lookup still
finds: the check returns the non-nil "not destroyed" error, the hosted zone resource being
skipped. -/
theorem destroy_check_absence_is_success_witness :
    route53_test.testAccCheckRecordsExclusiveDestroy reversed sampleDeps sampleState ≠ none ∧
    route53_test.testAccCheckRecordsExclusiveDestroy reversed sampleDeps sampleState =
      some (errors_New "checking destroyed Route 53 Records Exclusive (Z2): not destroyed") :=
  ((destroy_check_absence_is_success reversed sampleDeps sampleState
      (fun _ _ _ _ _ h => Option.noConfusion h)).2.2
    "aws_route53_records_exclusive.test" sampleRecords
    (List.mem_cons_of_mem _ (List.mem_cons_self _ _)) rfl
    (by
      intro e he ht
      rcases List.mem_cons.1 he with h | h
      · rw [h] at ht
        exact absurd ht (by decide)
      · rcases List.mem_cons.1 h with h' | h'
        · exact h'
        · exact absurd h' (List.not_mem_nil _))).2.2 rfl

/-! ## Further properties of the tag code -/

theorem keys_eq_nil_of_get?_eq_none {α : Type} (m : GoMap α) (h : ∀ k, m.get? k = none) :
    m.keys = [] := by
  apply List.eq_nil_iff_forall_not_mem.2
  intro k hk
  exact (m.get?_eq_none_iff k).1 (h k) hk

/-- When old and new are the same key to value map, `updateTags` issues no request and returns
nil. -/
theorem updateTags_same_tags_no_request (p : codeartifact.Provider) (ρ : RangeOrder String)
    (conn : codeartifact.CodeArtifactAPI) (identifier : String)
    (old new : tftags.KeyValueTags) (h : ∀ k, old.get? k = new.get? k) :
    codeartifact.updateTags p ρ conn identifier old new = ([], none) := by
  have hR : ¬ (codeartifact.removedTags p (tftags.KeyValueTags.New old)
      (tftags.KeyValueTags.New new)).len > 0 := by
    rw [len_pos_iff_keys_ne_nil, not_not]
    apply keys_eq_nil_of_get?_eq_none
    intro k
    unfold codeartifact.removedTags tftags.KeyValueTags.New
    simp only [get?_IgnoreSystem, get?_Removed, h k]
    cases hn : GoMap.get? new k <;> simp
  have hU : ¬ (codeartifact.updatedTags p (tftags.KeyValueTags.New old)
      (tftags.KeyValueTags.New new)).len > 0 := by
    rw [len_pos_iff_keys_ne_nil, not_not]
    apply keys_eq_nil_of_get?_eq_none
    intro k
    unfold codeartifact.updatedTags tftags.KeyValueTags.New
    simp only [get?_IgnoreSystem, get?_Updated, h k]
    simp
  unfold codeartifact.updateTags codeartifact.updateTags_tag
  simp only
  rw [if_neg hR, if_neg hU]

/-- The sample tag set against itself: no request, nil. -/
theorem updateTags_same_tags_no_request_witness :
    codeartifact.updateTags sampleProvider inOrder (fixedResponses (some sampleError) none)
      "arn" sampleTags sampleTags = ([], none) :=
  updateTags_same_tags_no_request sampleProvider inOrder
    (fixedResponses (some sampleError) none) "arn" sampleTags sampleTags (fun _ => rfl)

/-- The value `KeyValueTags` gives a key is the value of the last tag of the list with that
key, a nil key counting as the empty key and a nil value as the empty value; a key no tag of
the list has is absent. -/
theorem KeyValueTags_last_tag_wins (tags : List codeartifact.Tag) (k : String) :
    (codeartifact.KeyValueTags tags).get? k =
      (tags.reverse.find? (fun tag => decide (aws_StringValue tag.Key = k))).map
        (fun tag => aws_StringValue tag.Value) := by
  have hfold : ∀ (l : List codeartifact.Tag) (m : GoMap (Option String)),
      l.foldl (fun m tag => m.set (aws_StringValue tag.Key) tag.Value) m =
        (l.map (fun tag => (aws_StringValue tag.Key, tag.Value))).foldl
          (fun m e => m.set e.1 e.2) m := by
    intro l
    induction l with
    | nil => intro m; rfl
    | cons a as ih => intro m; simp only [List.map_cons, List.foldl_cons]; exact ih _
  have hfind : ∀ l : List codeartifact.Tag,
      alookup k (l.map (fun tag => (aws_StringValue tag.Key, tag.Value))) =
        (l.find? (fun tag => decide (aws_StringValue tag.Key = k))).map
          (fun tag => tag.Value) := by
    intro l
    induction l with
    | nil => rfl
    | cons a as ih =>
      by_cases h : aws_StringValue a.Key = k
      · simp [alookup, List.find?, h]
      · simp [alookup, List.find?, h, ih]
  unfold codeartifact.KeyValueTags tftags.KeyValueTags.New_ptrs
  simp only
  rw [GoMap.get?_mapValues, hfold, GoMap.get?_foldl_set, ← List.map_reverse, hfind]
  cases hf : tags.reverse.find? (fun tag => decide (aws_StringValue tag.Key = k)) <;>
    simp [GoMap.get?, GoMap.empty, alookup]
